import Mathlib

/-!
Shallow embedding of the detection-and-control core of the ESP32-CAM
line-following robot, together with theorems checking the specification
claims against it.

Namespaces and their source files:
- `Mono`  : src/MonochromeLineDetection.cpp (grayscale and 1-bit detection)
- `Robot` : examples/monochrome_1bit_robot.ino (PID controller and
            recovery state machine)
- `Cam`   : the main sketch (calibrateCamera, detectLineCenterInRegion,
            detectCurveAndTurn)

Machine integers are modelled as Nat / Int (all quantities involved are
small and non-negative in the C code, and C integer division on
non-negative ints is Nat division).  C float arithmetic in the PID
controller and the curve estimator is modelled over the rationals.
-/

namespace Mono

/-- Result record of the monochrome detector, from struct MonoLineResult. -/
structure MonoLineResult where
  detected : Bool
  position : Nat
  width : Nat
  confidence : Nat
  deviation : Int
deriving Repr, DecidableEq

/-- MONO_SCAN_ROWS from MonochromeLineDetection.h. -/
def MONO_SCAN_ROWS : Nat := 8

/-- roiStart = (int)(height * MONO_ROI_START) with MONO_ROI_START = 0.6,
read as the exact value height * 6 / 10 truncated. -/
def roiStartOf (height : Nat) : Nat := height * 6 / 10

/-- scanStep = (height - roiStart) / MONO_SCAN_ROWS, raised to 1 when below 1. -/
def scanStepOf (height roiStart : Nat) : Nat :=
  max ((height - roiStart) / MONO_SCAN_ROWS) 1

/-- The row indices visited by `for (int row = roiStart; row < height; row += scanStep)`:
row + step * i for every i with row + step * i < height.  The callers always
pass step >= 1, so the loop visits exactly ceil((height - row) / step) rows. -/
def scanRows (height step row : Nat) : List Nat :=
  (List.range ((height - row + step - 1) / step)).map (fun i => row + step * i)

/-- One left-to-right pass over a row recording the first and the last index
where the predicate holds (darkStart / darkEnd in the C row loops);
none when the predicate holds nowhere on the row. -/
def rowDarkInterval (p : Nat → Bool) (w : Nat) : Option (Nat × Nat) :=
  (List.range w).foldl
    (fun acc x =>
      if p x then
        some (match acc with
              | none => (x, x)
              | some q => (q.1, x))
      else acc)
    none

/-- Number of indices of the row where the predicate holds
(the darkPixels counters of the C loops). -/
def rowDarkCount (p : Nat → Bool) (w : Nat) : Nat :=
  (List.range w).foldl (fun c x => if p x then c + 1 else c) 0

/-- scanRowForLine: first/last dark pixel of the row, the row is accepted
when darkEnd - darkStart + 1 >= minLineWidth, and the accepted position is
(lineCenter * 100) / width. -/
def scanRowForLine (gray : Nat → Nat) (t minW w row : Nat) : Option Nat :=
  match rowDarkInterval (fun x => gray (row * w + x) < t) w with
  | none => none
  | some (s, e) =>
      if minW ≤ e - s + 1 then some ((s + e) / 2 * 100 / w) else none

/-- calculateConfidence: consistency = detectionCount * 70 / totalScans,
width score 30 inside [minLineWidth, 50], 15 above 50, else 0.
The C code applies no cap to either part. -/
def calculateConfidence (minW width detectionCount totalScans : Nat) : Nat :=
  detectionCount * 70 / totalScans +
    (if minW ≤ width ∧ width ≤ 50 then 30
     else if 50 < width then 15 else 0)

/-- Accumulator of the multi-row scan of detectLine. -/
structure ScanTotals where
  totalPosition : Nat
  totalWidth : Nat
  detectionCount : Nat
deriving Repr, DecidableEq

/-- Row aggregation loop of detectLine: for each accepted row add its
position and its dark-pixel count (the second per-row loop of detectLine). -/
def detectLineAccum (gray : Nat → Nat) (t minW w : Nat) (rows : List Nat) :
    ScanTotals :=
  rows.foldl
    (fun a row =>
      match scanRowForLine gray t minW w row with
      | some pos =>
          { totalPosition := a.totalPosition + pos
            totalWidth :=
              a.totalWidth + rowDarkCount (fun x => gray (row * w + x) < t) w
            detectionCount := a.detectionCount + 1 }
      | none => a)
    ⟨0, 0, 0⟩

/-- detectLine on a grayscale frame of the given size, with the threshold
and minimum line width of the detector object. -/
def detectLine (gray : Nat → Nat) (w h t minW : Nat) : MonoLineResult :=
  let roiStart := roiStartOf h
  let step := scanStepOf h roiStart
  let tot := detectLineAccum gray t minW w (scanRows h step roiStart)
  if 0 < tot.detectionCount then
    let position := tot.totalPosition / tot.detectionCount
    let width := tot.totalWidth / tot.detectionCount
    { detected := true
      position := position
      width := width
      confidence := calculateConfidence minW width tot.detectionCount MONO_SCAN_ROWS
      deviation := (position : Int) - 50 }
  else ⟨false, 0, 0, 0, 0⟩

/-- One iteration of the bit-setting body of convertToBinary: set bit
7 - pixelIdx % 8 of byte pixelIdx / 8 of the packed output. -/
def setBit (out : Nat → Nat) (pixelIdx : Nat) : Nat → Nat :=
  fun j =>
    if j = pixelIdx / 8 then out (pixelIdx / 8) ||| 1 <<< (7 - pixelIdx % 8)
    else out j

/-- convertToBinary: the packed buffer starts as zeros and, for every pixel
index below width * height in row-major order, the bit for that pixel is set
exactly when the grayscale value is at or above the threshold (1 = white). -/
def convertToBinary (gray : Nat → Nat) (w h t : Nat) : Nat → Nat :=
  (List.range (w * h)).foldl
    (fun out pixelIdx => if t ≤ gray pixelIdx then setBit out pixelIdx else out)
    (fun _ => 0)

/-- The pixel read of detectLineInBinary:
isWhite = (binary[pixelIdx / 8] >> (7 - pixelIdx % 8)) & 1. -/
def isWhiteBit (binary : Nat → Nat) (pixelIdx : Nat) : Bool :=
  (binary (pixelIdx / 8) >>> (7 - pixelIdx % 8)) &&& 1 == 1

/-- The single row loop of detectLineInBinary: first and last black pixel
together with the black-pixel count, in one pass. -/
def binaryRowScan (dark : Nat → Bool) (w : Nat) : Option (Nat × Nat) × Nat :=
  (List.range w).foldl
    (fun acc x =>
      if dark x then
        (some (match acc.1 with
               | none => (x, x)
               | some q => (q.1, x)),
         acc.2 + 1)
      else acc)
    (none, 0)

/-- Row aggregation loop of detectLineInBinary. -/
def detectLineInBinaryAccum (binary : Nat → Nat) (minW w : Nat)
    (rows : List Nat) : ScanTotals :=
  rows.foldl
    (fun a row =>
      match binaryRowScan (fun x => !isWhiteBit binary (row * w + x)) w with
      | (some (s, e), darkPixels) =>
          if minW ≤ e - s + 1 then
            { totalPosition := a.totalPosition + (s + e) / 2 * 100 / w
              totalWidth := a.totalWidth + darkPixels
              detectionCount := a.detectionCount + 1 }
          else a
      | (none, _) => a)
    ⟨0, 0, 0⟩

/-- detectLineInBinary on a packed 1-bit buffer. -/
def detectLineInBinary (binary : Nat → Nat) (w h minW : Nat) : MonoLineResult :=
  let roiStart := roiStartOf h
  let step := scanStepOf h roiStart
  let tot := detectLineInBinaryAccum binary minW w (scanRows h step roiStart)
  if 0 < tot.detectionCount then
    let position := tot.totalPosition / tot.detectionCount
    let width := tot.totalWidth / tot.detectionCount
    { detected := true
      position := position
      width := width
      confidence := calculateConfidence minW width tot.detectionCount MONO_SCAN_ROWS
      deviation := (position : Int) - 50 }
  else ⟨false, 0, 0, 0, 0⟩

end Mono

namespace Cam

/-! Embedding of the main sketch: detectLineCenterInRegion row scanning,
detectCurveAndTurn and calibrateCamera. -/

/-- State of the first row loop of detectLineCenterInRegion: before the
line, inside the line, or after the break. -/
inductive RowScanState where
  | searching : RowScanState
  | inLine : Nat → RowScanState
  | finished : Nat → Nat → RowScanState
deriving Repr, DecidableEq

/-- First loop of detectLineCenterInRegion: scan left to right, record the
transition from field to line, break at the transition back to field. -/
def regionRowLoop1 (px : Nat → Nat) (lineColor fieldColor w : Nat) :
    RowScanState :=
  (List.range w).foldl
    (fun st x =>
      match st with
      | RowScanState.searching =>
          if px x = lineColor then RowScanState.inLine x
          else RowScanState.searching
      | RowScanState.inLine l =>
          if px x = fieldColor then RowScanState.finished l (x - 1)
          else RowScanState.inLine l
      | RowScanState.finished l r => RowScanState.finished l r)
    RowScanState.searching

/-- Second loop of detectLineCenterInRegion: when the first loop never saw
the end of the line, scan from the right for the last line pixel. -/
def scanFromRightAt (px : Nat → Nat) (lineColor : Nat) : Nat → Option Nat
  | 0 => if px 0 = lineColor then some 0 else none
  | x + 1 =>
      if px (x + 1) = lineColor then some (x + 1)
      else scanFromRightAt px lineColor x

/-- The leftEdge / rightEdge pair a single row of detectLineCenterInRegion
produces (none encodes the C sentinel -1). -/
def regionRowEdges (px : Nat → Nat) (lineColor fieldColor w : Nat) :
    Option Nat × Option Nat :=
  match regionRowLoop1 px lineColor fieldColor w with
  | RowScanState.searching => (none, none)
  | RowScanState.finished l r => (some l, some r)
  | RowScanState.inLine l => (some l, scanFromRightAt px lineColor (w - 1))

/-- Row validation of detectLineCenterInRegion:
leftEdge != -1 && rightEdge != -1 && (rightEdge - leftEdge) >= 5. -/
def regionRowValid (px : Nat → Nat) (lineColor fieldColor w : Nat) : Bool :=
  match regionRowEdges px lineColor fieldColor w with
  | (some l, some r) => 5 ≤ r - l
  | _ => false

/-- Number of regions with a detected line center (centers are ints with
-1 as the not-detected sentinel). -/
def regionsDetected (top middle bottom : Int) : Nat :=
  (if 0 ≤ top then 1 else 0) + (if 0 ≤ middle then 1 else 0) +
    (if 0 ≤ bottom then 1 else 0)

/-- The displacement accumulation of detectCurveAndTurn, returning the sum
and the number of valid comparisons.  The first branch is the literal
bottom-to-middle comparison of the C code, including its conditional
(lineCenterTop >= 0 ? lineCenterMiddle : lineCenterBottom) operand. -/
def curveDisplacementRaw (top middle bottom : Int) : Rat × Nat :=
  let acc : Rat × Nat := (0, 0)
  let acc :=
    if 0 ≤ bottom ∧ 0 ≤ middle then
      (acc.1 + (((if 0 ≤ top then middle else bottom) - middle : Int) : Rat),
       acc.2 + 1)
    else acc
  let acc :=
    if 0 ≤ middle ∧ 0 ≤ top then
      (acc.1 + ((middle - top : Int) : Rat), acc.2 + 1)
    else acc
  let acc :=
    if 0 ≤ bottom ∧ 0 ≤ top then
      (acc.1 + ((bottom - top : Int) : Rat) * (1 / 2), acc.2 + 1)
    else acc
  acc

/-- Turn classification of detectCurveAndTurn. -/
inductive TurnDirection where
  | straight : TurnDirection
  | left : TurnDirection
  | right : TurnDirection
deriving Repr, DecidableEq

/-- Observable outcome of detectCurveAndTurn.  curveAngle =
atan(displacement / (0.4 * width)) * 180 / 3.14159 and sharpTurn =
|curveAngle| > 30 are strictly monotone images of the displacement and are
not modelled (atan is transcendental); the displacement and the direction
carry the discrete content. -/
structure CurveResult where
  displacement : Rat
  turnDirection : TurnDirection
deriving Repr, DecidableEq

/-- detectCurveAndTurn: needs at least two detected regions, averages the
pairwise comparisons, classifies straight below 5 percent of the width and
left/right by sign. -/
def detectCurveAndTurn (width : Nat) (top middle bottom : Int) : CurveResult :=
  if regionsDetected top middle bottom < 2 then ⟨0, TurnDirection.straight⟩
  else
    let acc := curveDisplacementRaw top middle bottom
    if 0 < acc.2 then
      let d := acc.1 / (acc.2 : Rat)
      if |d| < (width : Rat) * (5 / 100) then ⟨d, TurnDirection.straight⟩
      else if 0 < d then ⟨d, TurnDirection.right⟩
      else ⟨d, TurnDirection.left⟩
    else ⟨0, TurnDirection.straight⟩


/-! Embedding of calibrateCamera. -/

/-- Intensity histogram of the first len bytes of the frame buffer: the
count of bin v after the filling loop. -/
def histCount (buf : Nat → Nat) (len v : Nat) : Nat :=
  ((List.range len).filter (fun i => buf i = v)).length

/-- Peak search loop over the bins lo, lo + 1, ..., lo + n - 1 starting
from maxPeak = 0, peakIdx = 0 and updating on a strictly greater count. -/
def findPeakAux (hist : Nat → Nat) (lo n : Nat) : Nat × Nat :=
  (List.range' lo n).foldl
    (fun acc i => if acc.1 < hist i then (hist i, i) else acc) (0, 0)

/-- (maxPeak, peakIdx) over the half-open bin range [lo, hi). -/
def findPeak (hist : Nat → Nat) (lo hi : Nat) : Nat × Nat :=
  findPeakAux hist lo (hi - lo)

/-- The persistent calibration state: binaryThreshold and invertColors. -/
structure CalibState where
  binaryThreshold : Nat
  invertColors : Bool
deriving Repr, DecidableEq

/-- Border sampling loop over the top and bottom rows. -/
def edgeSumTB (buf : Nat → Nat) (w h : Nat) : Nat :=
  (List.range w).foldl (fun s x => s + buf x + buf ((h - 1) * w + x)) 0

/-- Border sampling loop over the left and right columns, rows 1..h-2. -/
def edgeSumLR (buf : Nat → Nat) (w h : Nat) : Nat :=
  (List.range' 1 (h - 2)).foldl
    (fun s y => s + buf (y * w) + buf (y * w + (w - 1))) 0

/-- calibrateCamera on a grayscale frame: histogram peaks in [0,128) and
[128,256), threshold = midpoint of the peak indices, polarity from the
border average; on a missing peak the state is left untouched. -/
def calibrateCamera (buf : Nat → Nat) (w h : Nat) (st : CalibState) :
    CalibState :=
  let len := w * h
  let hist := histCount buf len
  let p1 := findPeak hist 0 128
  let p2 := findPeak hist 128 256
  if 0 < p1.1 ∧ 0 < p2.1 then
    let binaryThreshold := (p1.2 + p2.2) / 2
    let edgeSum := edgeSumTB buf w h + edgeSumLR buf w h
    let edgeCount := 2 * w + 2 * (h - 2)
    let edgeAvg := edgeSum / edgeCount
    ⟨binaryThreshold, decide (edgeAvg < binaryThreshold)⟩
  else st

/-- The border pixels as the specification reads them: top row, bottom
row, then the left and right columns without the corner rows. -/
def borderPixels (buf : Nat → Nat) (w h : Nat) : List Nat :=
  ((List.range w).map (fun x => buf x)) ++
    ((List.range w).map (fun x => buf ((h - 1) * w + x))) ++
    ((List.range' 1 (h - 2)).map (fun y => buf (y * w))) ++
    ((List.range' 1 (h - 2)).map (fun y => buf (y * w + (w - 1))))

/-- p is the tallest bin of the half-open range [lo, hi), taking the
lowest index on ties, and its count is positive. -/
def IsFirstPeak (hist : Nat → Nat) (lo hi p : Nat) : Prop :=
  lo ≤ p ∧ p < hi ∧ 0 < hist p ∧
    (∀ i, lo ≤ i → i < hi → hist i ≤ hist p) ∧
    (∀ i, lo ≤ i → i < p → hist i < hist p)

end Cam

namespace Robot

/-! Embedding of the robot control example: PID controller, line
reacquisition and the timed recovery state machine.  The float state is
modelled over the rationals; gains are parameters (PID_KP etc. are
compile-time constants in the source). -/

/-- The mutable PID variables previousError and integral. -/
structure PidState where
  previousError : Rat
  integral : Rat
deriving Repr, DecidableEq

/-- calculatePID: proportional term, clamped integral term, derivative
term, summed and clamped to [-100, 100]; returns the control value and the
updated state. -/
def calculatePID (kp ki kd : Rat) (st : PidState) (error : Rat) :
    Rat × PidState :=
  let P := kp * error
  let integral := st.integral + error
  let integral := if integral > 50 then 50 else integral
  let integral := if integral < -50 then -50 else integral
  let I := ki * integral
  let D := kd * (error - st.previousError)
  let previousError := error
  let control := P + I + D
  let control := if control > 100 then 100 else control
  let control := if control < -100 then -100 else control
  (control, ⟨previousError, integral⟩)

/-- enum RobotState of the robot example. -/
inductive RobotState where
  | STOPPED : RobotState
  | CALIBRATING : RobotState
  | FOLLOWING : RobotState
  | SEARCHING_LEFT : RobotState
  | SEARCHING_RIGHT : RobotState
  | LINE_LOST : RobotState
deriving Repr, DecidableEq

/-- The mutable control state of the sketch: current state, PID variables
and the two millisecond timestamps. -/
structure Machine where
  state : RobotState
  pid : PidState
  searchStartTime : Nat
  lastDetectionTime : Nat
deriving Repr, DecidableEq

/-- CONFIDENCE_MIN of the robot example. -/
def CONFIDENCE_MIN : Nat := 40

/-- Opening lines of handleLineDetected: stamp lastDetectionTime and, when
the state was not FOLLOWING, go to FOLLOWING and reset the PID state. -/
def reacquire (m : Machine) (now : Nat) : Machine :=
  let m := { m with lastDetectionTime := now }
  if m.state ≠ RobotState.FOLLOWING then
    { m with state := RobotState.FOLLOWING, pid := ⟨0, 0⟩ }
  else m

/-- handleLineDetected: reacquisition update followed by the PID step on
error = result.deviation. -/
def handleLineDetected (kp ki kd : Rat) (m : Machine) (now : Nat)
    (deviation : Rat) : Machine × Rat :=
  let m := reacquire m now
  let r := calculatePID kp ki kd m.pid deviation
  ({ m with pid := r.2 }, r.1)

/-- handleLineNotDetected: the timed search cascade.  millis() is sampled
as the single instant now; the unsigned subtractions are Nat
subtractions. -/
def handleLineNotDetected (m : Machine) (now : Nat) : Machine :=
  let timeSinceDetection := now - m.lastDetectionTime
  match m.state with
  | RobotState.FOLLOWING =>
      if 300 < timeSinceDetection then
        { m with state := RobotState.SEARCHING_LEFT, searchStartTime := now }
      else m
  | RobotState.SEARCHING_LEFT =>
      if 800 < now - m.searchStartTime then
        { m with state := RobotState.SEARCHING_RIGHT, searchStartTime := now }
      else m
  | RobotState.SEARCHING_RIGHT =>
      if 1500 < now - m.searchStartTime then
        { m with state := RobotState.LINE_LOST }
      else m
  | _ => m

/-- The dispatch of loop(): a positive detection is detected = true with
confidence at or above CONFIDENCE_MIN; it goes to handleLineDetected, all
else to handleLineNotDetected. -/
def loopStep (kp ki kd : Rat) (m : Machine) (now : Nat)
    (r : Mono.MonoLineResult) : Machine × Option Rat :=
  if r.detected = true ∧ CONFIDENCE_MIN ≤ r.confidence then
    let s := handleLineDetected kp ki kd m now ((r.deviation : Int) : Rat)
    (s.1, some s.2)
  else (handleLineNotDetected m now, none)

end Robot

/-- A 100 pixel row whose only line-colored (dark) run is columns 48..52,
five pixels wide. -/
def row4852 : Nat → Nat := fun x => if 48 ≤ x ∧ x ≤ 52 then 0 else 255

/-- A 4 x 4 frame with intensity 60 at the four interior pixels and 200 on
the whole border: dominant histogram bins 60 and 200. -/
def img44 : Nat → Nat :=
  fun i => if i = 5 ∨ i = 6 ∨ i = 9 ∨ i = 10 then 60 else 200

namespace Mono

/-! Helper lemmas about the packed 1-bit representation and the row scans. -/

/-- The bit test of detectLineInBinary is Nat.testBit. -/
lemma shiftAnd_eq_testBit (b i : Nat) :
    ((b >>> i) &&& 1 == 1) = Nat.testBit b i := by
  rw [Nat.testBit_to_div_mod, ← Nat.shiftRight_eq_div_pow, Nat.and_one_is_mod]
  rcases Nat.mod_two_eq_zero_or_one (b >>> i) with hm | hm <;> simp [hm]

/-- Bit 7 - k of byte j of the partially built packed buffer is set exactly
when pixel 8 * j + k has already been processed and is at or above the
threshold. -/
lemma convertAux_testBit (gray : Nat → Nat) (t : Nat) :
    ∀ n j k, k < 8 →
      (Nat.testBit
          (((List.range n).foldl
              (fun out pixelIdx =>
                if t ≤ gray pixelIdx then setBit out pixelIdx else out)
              (fun _ => 0)) j)
          (7 - k) = true ↔
        8 * j + k < n ∧ t ≤ gray (8 * j + k)) := by
  intro n
  induction n with
  | zero =>
      intro j k _
      simp [Nat.zero_testBit]
  | succ n ih =>
      intro j k hk
      rw [List.range_succ, List.foldl_append, List.foldl_cons, List.foldl_nil]
      by_cases hg : t ≤ gray n
      · rw [if_pos hg]
        by_cases hj : j = n / 8
        · subst hj
          simp only [setBit, if_true]
          rw [Nat.testBit_lor, Nat.one_shiftLeft, Nat.testBit_two_pow]
          have hr : n % 8 < 8 := Nat.mod_lt _ (by omega)
          constructor
          · intro hor
            rcases Bool.or_eq_true_iff.mp hor with hbit | hpow
            · have hih := (ih (n / 8) k hk).mp hbit
              exact ⟨by omega, hih.2⟩
            · have h78 : 7 - n % 8 = 7 - k := of_decide_eq_true hpow
              have hn : 8 * (n / 8) + k = n := by omega
              exact ⟨by omega, by rw [hn]; exact hg⟩
          · rintro ⟨h1, h2⟩
            by_cases hkr : n % 8 = k
            · exact Bool.or_eq_true_iff.mpr (Or.inr (decide_eq_true (by omega)))
            · exact Bool.or_eq_true_iff.mpr
                (Or.inl ((ih (n / 8) k hk).mpr ⟨by omega, h2⟩))
        · simp only [setBit]
          rw [if_neg hj, ih j k hk]
          have hne : 8 * j + k ≠ n := by
            intro hEq
            exact hj (by omega)
          exact ⟨fun ⟨h1, h2⟩ => ⟨by omega, h2⟩, fun ⟨h1, h2⟩ => ⟨by omega, h2⟩⟩
      · rw [if_neg hg]
        rw [ih j k hk]
        constructor
        · rintro ⟨h1, h2⟩
          exact ⟨by omega, h2⟩
        · rintro ⟨h1, h2⟩
          refine ⟨?_, h2⟩
          rcases Nat.lt_succ_iff_lt_or_eq.mp h1 with h | h
          · exact h
          · exact absurd (h ▸ h2) hg

/-- Round trip through the packed buffer: reading the bit of a pixel inside
the image recovers the thresholded grayscale value. -/
lemma isWhiteBit_convertToBinary (gray : Nat → Nat) (w h t idx : Nat)
    (hidx : idx < w * h) :
    isWhiteBit (convertToBinary gray w h t) idx = decide (t ≤ gray idx) := by
  unfold isWhiteBit convertToBinary
  rw [shiftAnd_eq_testBit]
  have h8 : idx % 8 < 8 := Nat.mod_lt _ (by omega)
  have hiff := convertAux_testBit gray t (w * h) (idx / 8) (idx % 8) h8
  have hdm : 8 * (idx / 8) + idx % 8 = idx := by omega
  rw [hdm] at hiff
  by_cases hgt : t ≤ gray idx
  · rw [decide_eq_true hgt]
    exact hiff.mpr ⟨hidx, hgt⟩
  · rw [decide_eq_false hgt, Bool.eq_false_iff]
    intro hb
    exact hgt (hiff.mp hb).2

/-- The single pass of detectLineInBinary splits into the interval pass and
the counting pass. -/
lemma foldl_pair_split (d : Nat → Bool) :
    ∀ (l : List Nat) (iv : Option (Nat × Nat)) (c : Nat),
      l.foldl
        (fun acc x =>
          if d x then
            (some (match acc.1 with
                   | none => (x, x)
                   | some q => (q.1, x)),
             acc.2 + 1)
          else acc)
        (iv, c) =
      (l.foldl
        (fun acc x =>
          if d x then
            some (match acc with
                  | none => (x, x)
                  | some q => (q.1, x))
          else acc)
        iv,
       l.foldl (fun c x => if d x then c + 1 else c) c)
  | [], iv, c => rfl
  | x :: xs, iv, c => by
      by_cases hd : d x <;>
        simp only [List.foldl_cons, hd, if_pos, if_neg, Bool.false_eq_true,
          ite_true, ite_false] <;>
        exact foldl_pair_split d xs _ _

/-- binaryRowScan computes the same interval and count as the two grayscale
row passes. -/
lemma binaryRowScan_eq (d : Nat → Bool) (w : Nat) :
    binaryRowScan d w = (rowDarkInterval d w, rowDarkCount d w) := by
  unfold binaryRowScan rowDarkInterval rowDarkCount
  exact foldl_pair_split d (List.range w) none 0

/-- The row interval only depends on the predicate inside the row. -/
lemma rowDarkInterval_congr {p q : Nat → Bool} (w : Nat)
    (hpq : ∀ x < w, p x = q x) :
    rowDarkInterval p w = rowDarkInterval q w := by
  unfold rowDarkInterval
  exact List.foldl_ext _ _ _
    (fun a x hx => by rw [hpq x (List.mem_range.mp hx)])

/-- The row count only depends on the predicate inside the row. -/
lemma rowDarkCount_congr {p q : Nat → Bool} (w : Nat)
    (hpq : ∀ x < w, p x = q x) :
    rowDarkCount p w = rowDarkCount q w := by
  unfold rowDarkCount
  exact List.foldl_ext _ _ _
    (fun a x hx => by rw [hpq x (List.mem_range.mp hx)])

/-- Every visited row index is inside the image. -/
lemma scanRows_mem_lt {height step row r : Nat}
    (hr : r ∈ scanRows height step row) : r < height := by
  unfold scanRows at hr
  simp only [List.mem_map, List.mem_range] at hr
  obtain ⟨i, hi, rfl⟩ := hr
  rcases Nat.eq_zero_or_pos step with hs | hs
  · rw [hs, Nat.div_zero] at hi
    exact absurd hi (Nat.not_lt_zero i)
  · have hmul : (i + 1) * step ≤ height - row + step - 1 :=
      (Nat.le_div_iff_mul_le hs).mp hi
    have hexp : (i + 1) * step = step * i + step := by ring
    rw [hexp] at hmul
    omega

/-- On the packed image, the per-row aggregation of detectLineInBinary agrees
with the per-row aggregation of detectLine. -/
lemma detect_accum_eq (gray : Nat → Nat) (w h t minW : Nat) (rows : List Nat)
    (hrows : ∀ r ∈ rows, r < h) :
    detectLineInBinaryAccum (convertToBinary gray w h t) minW w rows =
      detectLineAccum gray t minW w rows := by
  unfold detectLineInBinaryAccum detectLineAccum
  apply List.foldl_ext
  intro a row hrow
  have hrowh := hrows row hrow
  have hpred : ∀ x < w,
      (!isWhiteBit (convertToBinary gray w h t) (row * w + x)) =
        (fun x => decide (gray (row * w + x) < t)) x := by
    intro x hx
    have hwpos : 0 < w := by omega
    have hidx : row * w + x < w * h := by
      have h1 : row * w + x < (row + 1) * w := by
        rw [Nat.succ_mul]
        omega
      have h2 : (row + 1) * w ≤ h * w := Nat.mul_le_mul_right w hrowh
      have h3 : h * w = w * h := Nat.mul_comm h w
      omega
    rw [isWhiteBit_convertToBinary gray w h t _ hidx]
    by_cases hle : t ≤ gray (row * w + x)
    · have hnl : ¬ gray (row * w + x) < t := not_lt.mpr hle
      simp [hle, hnl]
    · have hl : gray (row * w + x) < t := not_le.mp hle
      simp [hle, hl]
  have hscan :
      binaryRowScan (fun x => !isWhiteBit (convertToBinary gray w h t) (row * w + x)) w =
        (rowDarkInterval (fun x => decide (gray (row * w + x) < t)) w,
         rowDarkCount (fun x => decide (gray (row * w + x) < t)) w) := by
    rw [binaryRowScan_eq]
    rw [rowDarkInterval_congr w hpred, rowDarkCount_congr w hpred]
  rw [hscan]
  unfold scanRowForLine
  rcases hIV : rowDarkInterval (fun x => decide (gray (row * w + x) < t)) w with _ | ⟨s, e⟩
  · rfl
  · by_cases hwide : minW ≤ e - s + 1
    · simp [hwide]
    · simp [hwide]

/-- Grayscale detection and packed 1-bit detection produce the same result
record on every frame. -/
lemma detectLine_eq_binary (gray : Nat → Nat) (w h t minW : Nat) :
    detectLine gray w h t minW =
      detectLineInBinary (convertToBinary gray w h t) w h minW := by
  have hacc := detect_accum_eq gray w h t minW
    (scanRows h (scanStepOf h (roiStartOf h)) (roiStartOf h))
    (fun r hr => scanRows_mem_lt hr)
  unfold detectLine detectLineInBinary
  simp only [hacc]

/-- Characterization of the row pass: it returns none exactly when no pixel
of the row satisfies the predicate, and otherwise the first and the last
such pixel. -/
lemma rowDarkInterval_spec (p : Nat → Bool) :
    ∀ w, (rowDarkInterval p w = none ∧ ∀ x < w, p x = false) ∨
      (∃ s e, rowDarkInterval p w = some (s, e) ∧ s ≤ e ∧ e < w ∧
        p s = true ∧ p e = true ∧ (∀ x < s, p x = false) ∧
        (∀ x, e < x → x < w → p x = false)) := by
  intro w
  induction w with
  | zero =>
      left
      exact ⟨rfl, fun x hx => absurd hx (Nat.not_lt_zero x)⟩
  | succ w ih =>
      have hstep : rowDarkInterval p (w + 1) =
          (if p w then
            some (match rowDarkInterval p w with
                  | none => (w, w)
                  | some q => (q.1, w))
          else rowDarkInterval p w) := by
        unfold rowDarkInterval
        rw [List.range_succ, List.foldl_append, List.foldl_cons, List.foldl_nil]
      rcases ih with ⟨hnone, hall⟩ | ⟨s, e, hsome, hse, hew, hps, hpe, hfirst, hlast⟩
      · by_cases hp : p w = true
        · right
          refine ⟨w, w, ?_, Nat.le_refl w, Nat.lt_succ_self w, hp, hp, hall,
            fun x hx1 hx2 => absurd hx2 (by omega)⟩
          rw [hstep, hnone, if_pos hp]
        · left
          refine ⟨?_, ?_⟩
          · rw [hstep, if_neg hp, hnone]
          · intro x hx
            rcases Nat.lt_succ_iff_lt_or_eq.mp hx with hlt | heq
            · exact hall x hlt
            · subst heq
              exact Bool.eq_false_iff.mpr hp
      · right
        by_cases hp : p w = true
        · refine ⟨s, w, ?_, by omega, Nat.lt_succ_self w, hps, hp, hfirst,
            fun x hx1 hx2 => absurd hx2 (by omega)⟩
          rw [hstep, hsome, if_pos hp]
        · refine ⟨s, e, ?_, hse, by omega, hps, hpe, hfirst, ?_⟩
          · rw [hstep, if_neg hp]
            exact hsome
          · intro x hx1 hx2
            rcases Nat.lt_succ_iff_lt_or_eq.mp hx2 with hlt | heq
            · exact hlast x hx1 hlt
            · subst heq
              exact Bool.eq_false_iff.mpr hp

/-- An accepted row position is at most 99. -/
lemma scanRowForLine_le (gray : Nat → Nat) (t minW w row pos : Nat)
    (h : scanRowForLine gray t minW w row = some pos) : pos ≤ 99 := by
  unfold scanRowForLine at h
  split at h
  · exact absurd h (by simp)
  · next s e heq =>
      split at h
      · next hwide =>
          have hpos : (s + e) / 2 * 100 / w = pos := Option.some_inj.mp h
          rcases rowDarkInterval_spec (fun x => decide (gray (row * w + x) < t)) w with
            ⟨hnone, _⟩ | ⟨s', e', hsome, hse, hew, _, _, _, _⟩
          · rw [hnone] at heq
            exact absurd heq (by simp)
          · rw [hsome] at heq
            have hpair : s' = s ∧ e' = e := by
              have hq := Option.some_inj.mp heq
              exact ⟨congrArg Prod.fst hq, congrArg Prod.snd hq⟩
            obtain ⟨rfl, rfl⟩ := hpair
            have hcenter : (s' + e') / 2 < w := by omega
            have hw : 0 < w := by omega
            have hlt : (s' + e') / 2 * 100 / w < 100 := by
              rw [Nat.div_lt_iff_lt_mul hw]
              calc (s' + e') / 2 * 100 < w * 100 :=
                    (Nat.mul_lt_mul_right (by omega : (0 : Nat) < 100)).mpr hcenter
                _ = 100 * w := Nat.mul_comm w 100
            omega
      · exact absurd h (by simp)

/-- Invariant of the row aggregation loop: the position total stays at or
below 99 times the number of accepted rows. -/
lemma detectLineAccum_fold_le (gray : Nat → Nat) (t minW w : Nat) :
    ∀ (rows : List Nat) (a : ScanTotals),
      a.totalPosition ≤ 99 * a.detectionCount →
      (rows.foldl
        (fun a row =>
          match scanRowForLine gray t minW w row with
          | some pos =>
              { totalPosition := a.totalPosition + pos
                totalWidth :=
                  a.totalWidth + rowDarkCount (fun x => gray (row * w + x) < t) w
                detectionCount := a.detectionCount + 1 }
          | none => a) a).totalPosition ≤
        99 * (rows.foldl
          (fun a row =>
            match scanRowForLine gray t minW w row with
            | some pos =>
                { totalPosition := a.totalPosition + pos
                  totalWidth :=
                    a.totalWidth + rowDarkCount (fun x => gray (row * w + x) < t) w
                  detectionCount := a.detectionCount + 1 }
            | none => a) a).detectionCount := by
  intro rows
  induction rows with
  | nil => intro a ha; exact ha
  | cons row rows ih =>
      intro a ha
      simp only [List.foldl_cons]
      split
      · next pos hscan =>
          have hp := scanRowForLine_le gray t minW w row pos hscan
          exact ih _ (by simp; omega)
      · exact ih a ha

/-- The aggregated position total is bounded by 99 per accepted row. -/
lemma detectLineAccum_position_le (gray : Nat → Nat) (t minW w : Nat)
    (rows : List Nat) :
    (detectLineAccum gray t minW w rows).totalPosition ≤
      99 * (detectLineAccum gray t minW w rows).detectionCount := by
  unfold detectLineAccum
  exact detectLineAccum_fold_le gray t minW w rows ⟨0, 0, 0⟩ (Nat.le_refl 0)

/-- Shape of a detectLine result: either the empty result or a detected
record built from aggregated totals with a bounded position sum. -/
lemma detectLine_cases (gray : Nat → Nat) (w h t minW : Nat) :
    detectLine gray w h t minW = ⟨false, 0, 0, 0, 0⟩ ∨
    ∃ tot : ScanTotals, 0 < tot.detectionCount ∧
      tot.totalPosition ≤ 99 * tot.detectionCount ∧
      detectLine gray w h t minW =
        ⟨true, tot.totalPosition / tot.detectionCount,
         tot.totalWidth / tot.detectionCount,
         calculateConfidence minW (tot.totalWidth / tot.detectionCount)
           tot.detectionCount MONO_SCAN_ROWS,
         (tot.totalPosition / tot.detectionCount : Int) - 50⟩ := by
  unfold detectLine
  dsimp only
  split
  · next hcnt =>
      right
      exact ⟨_, hcnt, detectLineAccum_position_le gray t minW w _, rfl⟩
  · next => left; rfl

end Mono

namespace Cam

/-- Unfolding of one peak-search step. -/
lemma findPeakAux_succ (hist : Nat → Nat) (lo n : Nat) :
    findPeakAux hist lo (n + 1) =
      (if (findPeakAux hist lo n).1 < hist (lo + n) then (hist (lo + n), lo + n)
       else findPeakAux hist lo n) := by
  unfold findPeakAux
  have hconcat : List.range' lo (n + 1) = List.range' lo n ++ [lo + n] := by
    simpa using @List.range'_concat 1 lo n
  rw [hconcat, List.foldl_append, List.foldl_cons, List.foldl_nil]

/-- Invariant of the peak search: it returns (0, 0) on an all-zero range
and otherwise the count and index of the first tallest bin. -/
lemma findPeakAux_spec (hist : Nat → Nat) (lo : Nat) :
    ∀ n,
      (findPeakAux hist lo n = (0, 0) ∧
        ∀ i, lo ≤ i → i < lo + n → hist i = 0) ∨
      (0 < (findPeakAux hist lo n).1 ∧
       (findPeakAux hist lo n).1 = hist (findPeakAux hist lo n).2 ∧
       lo ≤ (findPeakAux hist lo n).2 ∧
       (findPeakAux hist lo n).2 < lo + n ∧
       (∀ i, lo ≤ i → i < lo + n → hist i ≤ (findPeakAux hist lo n).1) ∧
       (∀ i, lo ≤ i → i < (findPeakAux hist lo n).2 →
          hist i < (findPeakAux hist lo n).1)) := by
  intro n
  induction n with
  | zero =>
      left
      exact ⟨rfl, fun i h1 h2 => absurd h2 (by omega)⟩
  | succ n ih =>
      rw [findPeakAux_succ]
      rcases ih with ⟨hzero, hall⟩ | ⟨hpos, hval, hlo, hhi, hle, hstrict⟩
      · rw [hzero]
        by_cases h0 : (0 : Nat) < hist (lo + n)
        · rw [if_pos h0]
          right
          refine ⟨h0, rfl, by omega, by omega, ?_, ?_⟩
          · intro i h1 h2
            rcases Nat.lt_succ_iff_lt_or_eq.mp (by omega : i - lo < n + 1) with hlt | heq
            · rw [hall i h1 (by omega)]
              omega
            · have : i = lo + n := by omega
              rw [this]
          · intro i h1 h2
            rw [hall i h1 (by omega)]
            exact h0
        · rw [if_neg h0]
          left
          refine ⟨rfl, ?_⟩
          intro i h1 h2
          by_cases hi : i = lo + n
          · rw [hi]; omega
          · exact hall i h1 (by omega)
      · by_cases hlt : (findPeakAux hist lo n).1 < hist (lo + n)
        · rw [if_pos hlt]
          right
          refine ⟨by omega, rfl, by omega, by omega, ?_, ?_⟩
          · intro i h1 h2
            by_cases hi : i = lo + n
            · rw [hi]
            · have := hle i h1 (by omega)
              omega
          · intro i h1 h2
            have := hle i h1 (by omega)
            omega
        · rw [if_neg hlt]
          right
          refine ⟨hpos, hval, hlo, by omega, ?_, hstrict⟩
          intro i h1 h2
          by_cases hi : i = lo + n
          · rw [hi]; omega
          · exact hle i h1 (by omega)

/-- A bin range containing a positive bin makes findPeak succeed with the
first tallest bin. -/
lemma findPeak_found (hist : Nat → Nat) (lo hi : Nat)
    (hex : ∃ i, lo ≤ i ∧ i < hi ∧ 0 < hist i) :
    0 < (findPeak hist lo hi).1 ∧
      IsFirstPeak hist lo hi (findPeak hist lo hi).2 := by
  obtain ⟨i, h1, h2, h3⟩ := hex
  rcases findPeakAux_spec hist lo (hi - lo) with ⟨_, hall⟩ | h
  · rw [hall i h1 (by omega)] at h3
    exact absurd h3 (by omega)
  · obtain ⟨hpos, hval, hplo, hphi, hle, hstrict⟩ := h
    unfold findPeak
    refine ⟨hpos, hplo, by omega, by omega, ?_, ?_⟩
    · intro j hj1 hj2
      have := hle j hj1 (by omega)
      omega
    · intro j hj1 hj2
      have := hstrict j hj1 hj2
      omega

/-- An all-zero bin range makes findPeak return (0, 0). -/
lemma findPeak_zero (hist : Nat → Nat) (lo hi : Nat)
    (hall : ∀ i, lo ≤ i → i < hi → hist i = 0) :
    findPeak hist lo hi = (0, 0) := by
  rcases findPeakAux_spec hist lo (hi - lo) with ⟨hz, _⟩ | h
  · exact hz
  · obtain ⟨hpos, hval, hplo, hphi, _, _⟩ := h
    rw [hall _ hplo (by omega)] at hval
    omega

/-- A border loop adding two samples per iteration is the sum of the two
mapped lists. -/
lemma foldl_add_two (f g : Nat → Nat) :
    ∀ (l : List Nat) (s : Nat),
      l.foldl (fun s x => s + f x + g x) s =
        s + (l.map f).sum + (l.map g).sum
  | [], s => by simp
  | x :: xs, s => by
      rw [List.foldl_cons, foldl_add_two f g xs (s + f x + g x)]
      simp [List.map_cons, List.sum_cons]
      omega

/-- The two edge-sampling loops add up every border pixel once. -/
lemma borderPixels_sum (buf : Nat → Nat) (w h : Nat) :
    (borderPixels buf w h).sum = edgeSumTB buf w h + edgeSumLR buf w h := by
  unfold borderPixels edgeSumTB edgeSumLR
  rw [List.sum_append, List.sum_append, List.sum_append,
    foldl_add_two (fun x => buf x) (fun x => buf ((h - 1) * w + x))
      (List.range w) 0,
    foldl_add_two (fun y => buf (y * w)) (fun y => buf (y * w + (w - 1)))
      (List.range' 1 (h - 2)) 0]
  omega

/-- The edge counter counts every border pixel once. -/
lemma borderPixels_length (buf : Nat → Nat) (w h : Nat) :
    (borderPixels buf w h).length = 2 * w + 2 * (h - 2) := by
  unfold borderPixels
  simp [List.length_append, List.length_map, List.length_range]
  omega

/-- A pixel of the frame makes its own bin positive. -/
lemma histCount_pos (buf : Nat → Nat) (len i : Nat) (hi : i < len) :
    0 < histCount buf len (buf i) := by
  unfold histCount
  exact List.length_pos_of_mem
    (List.mem_filter.mpr ⟨List.mem_range.mpr hi, by simp⟩)

end Cam

namespace Robot

/-- Both clamping if pairs of calculatePID are a max of a min. -/
lemma clampBranches (lo hi x : Rat) (hlh : lo ≤ hi) :
    (if (if hi < x then hi else x) < lo then lo
     else (if hi < x then hi else x)) = max lo (min hi x) := by
  rcases le_or_lt x hi with h | h
  · rw [if_neg (not_lt.mpr h), min_eq_right h]
    rcases le_or_lt lo x with h2 | h2
    · rw [if_neg (not_lt.mpr h2), max_eq_right h2]
    · rw [if_pos h2, max_eq_left (le_of_lt h2)]
  · rw [if_pos h, if_neg (not_lt.mpr hlh), min_eq_left (le_of_lt h),
      max_eq_right hlh]

/-- Closed form of the PID step. -/
lemma calculatePID_closed_form (kp ki kd : Rat) (st : PidState)
    (error : Rat) :
    calculatePID kp ki kd st error =
      (max (-100) (min 100
        (kp * error + ki * max (-50) (min 50 (st.integral + error)) +
          kd * (error - st.previousError))),
       ⟨error, max (-50) (min 50 (st.integral + error))⟩) := by
  unfold calculatePID
  dsimp only
  rw [clampBranches (-50) 50 (st.integral + error) (by norm_num),
    clampBranches (-100) 100 _ (by norm_num)]

end Robot

/-! Claim theorems for the monochrome detector. -/

/-- Claim C10 (confirmed): for every grayscale frame, running detectLine
directly on the 8-bit pixels returns exactly the same result record as
first packing the pixels with convertToBinary (pixels below the threshold
become 0 bits, others 1 bits, MSB first) and then running
detectLineInBinary on the packed buffer with the same width, height,
threshold and minimum line width. -/
theorem C10_grayscale_binary_equivalence (gray : Nat → Nat)
    (w h t minW : Nat) :
    Mono.detectLine gray w h t minW =
      Mono.detectLineInBinary (Mono.convertToBinary gray w h t) w h minW :=
  Mono.detectLine_eq_binary gray w h t minW

/-- Claim C6 (corrected): for every frame, position is in [0, 100] whenever
detected is true and deviation = position - 50 whenever detected is true;
when detected is false the C code leaves position = 0 and deviation = 0
(so deviation is not position - 50 there). -/
theorem C6_result_invariants (gray : Nat → Nat) (w h t minW : Nat) :
    ((Mono.detectLine gray w h t minW).detected = true →
      (Mono.detectLine gray w h t minW).position ≤ 100 ∧
      (Mono.detectLine gray w h t minW).deviation =
        ((Mono.detectLine gray w h t minW).position : Int) - 50) ∧
    ((Mono.detectLine gray w h t minW).detected = false →
      (Mono.detectLine gray w h t minW).position = 0 ∧
      (Mono.detectLine gray w h t minW).deviation = 0) := by
  rcases Mono.detectLine_cases gray w h t minW with hempty | ⟨tot, hcnt, hle, hdet⟩
  · rw [hempty]
    exact ⟨fun hfalse => by simp at hfalse, fun _ => ⟨rfl, rfl⟩⟩
  · rw [hdet]
    refine ⟨fun _ => ⟨?_, rfl⟩, fun hfalse => by simp at hfalse⟩
    have hdiv : tot.totalPosition / tot.detectionCount ≤ 99 := by
      calc tot.totalPosition / tot.detectionCount
          ≤ 99 * tot.detectionCount / tot.detectionCount :=
            Nat.div_le_div_right hle
        _ = 99 := Nat.mul_div_cancel 99 hcnt
    dsimp only
    omega

/-- Claim C6, counterexample to the claim as stated: on an all-bright frame
nothing is detected and the result has deviation 0 and position 0, so
deviation is not position - 50. -/
theorem C6_counterexample :
    (Mono.detectLine (fun _ => 255) 8 22 128 5).detected = false ∧
    (Mono.detectLine (fun _ => 255) 8 22 128 5).deviation ≠
      ((Mono.detectLine (fun _ => 255) 8 22 128 5).position : Int) - 50 := by
  decide

/-- Claim C6, witness: an all-dark frame is detected and the amended
invariants hold on it. -/
theorem C6_witness :
    (Mono.detectLine (fun _ => 0) 8 22 128 5).position ≤ 100 ∧
    (Mono.detectLine (fun _ => 0) 8 22 128 5).deviation =
      ((Mono.detectLine (fun _ => 0) 8 22 128 5).position : Int) - 50 :=
  (C6_result_invariants (fun _ => 0) 8 22 128 5).1 (by decide)

/-- Claim C5 (code_bug): calculateConfidence caps neither the consistency
part at 70 nor the sum at 100.  With sampleCount 10 out of 8 total scans
and an in-range width the code returns 117; the situation is reachable:
detectLine on an all-dark 8 x 22 frame accepts 9 rows yet passes
totalScans = MONO_SCAN_ROWS = 8, returning confidence 108 > 100, against
the 0..100 range the struct and function comments document. -/
theorem C5_confidence_exceeds_bounds :
    Mono.calculateConfidence 5 20 10 8 = 117 ∧
    (Mono.detectLine (fun _ => 0) 8 22 128 5).confidence = 108 ∧
    100 < (Mono.detectLine (fun _ => 0) 8 22 128 5).confidence := by
  decide

/-- Claim C9 (code_bug): in scanRowForLine a row with first dark pixel s
and last dark pixel e is accepted exactly when e - s + 1 >= minLineWidth,
and the 48..52 run is rejected at minLineWidth = 10; but the row loop of
detectLineCenterInRegion accepts only when rightEdge - leftEdge >= 5, so
it rejects the same 5-pixel run even though end - start + 1 = 5 meets the
documented minimum width of 5. -/
theorem C9_row_width_validation :
    (∀ (gray : Nat → Nat) (t minW w row s e : Nat),
        Mono.rowDarkInterval (fun x => decide (gray (row * w + x) < t)) w =
          some (s, e) →
        ((Mono.scanRowForLine gray t minW w row).isSome ↔
          minW ≤ e - s + 1)) ∧
    Mono.scanRowForLine row4852 128 10 100 0 = none ∧
    Cam.regionRowEdges row4852 0 255 100 = (some 48, some 52) ∧
    Cam.regionRowValid row4852 0 255 100 = false ∧
    5 ≤ 52 - 48 + 1 := by
  refine ⟨?_, by decide, by decide, by decide, by decide⟩
  intro gray t minW w row s e h
  unfold Mono.scanRowForLine
  split
  · next heq =>
      rw [h] at heq
      exact absurd heq (by simp)
  · next s' e' heq =>
      rw [h] at heq
      have hq := Option.some_inj.mp heq
      cases hq
      by_cases hwide : minW ≤ e - s + 1 <;> simp [hwide]

/-- Claim C9, witness: with minLineWidth 5, scanRowForLine accepts the
48..52 run since its width is 5. -/
theorem C9_witness :
    (Mono.scanRowForLine row4852 128 5 100 0).isSome ↔ 5 ≤ 52 - 48 + 1 :=
  C9_row_width_validation.1 row4852 128 5 100 0 48 52 (by decide)

/-- Claim C1 (code_bug): with all three regions detected at centers
top = 10, middle = 10, bottom = 50 and width 100, the code averages
(top detected ? middle : bottom) - middle = 0, middle - top = 0 and
(bottom - top) / 2 = 20 over three comparisons, giving displacement 20/3;
the weighted average the claim states, (bottom - middle) + (middle - top)
+ (bottom - top) / 2 over three comparisons, gives 20.  With fewer than
two regions detected the code does return the reset outcome. -/
theorem C1_curve_displacement_bug :
    Cam.detectCurveAndTurn 100 10 10 50 =
      ⟨20 / 3, Cam.TurnDirection.right⟩ ∧
    ((50 - 10 : Rat) + (10 - 10) + (50 - 10) * (1 / 2)) / 3 = 20 ∧
    (20 : Rat) / 3 ≠ 20 ∧
    Cam.detectCurveAndTurn 100 (-1) (-1) 50 =
      ⟨0, Cam.TurnDirection.straight⟩ := by
  have hraw : Cam.curveDisplacementRaw 10 10 50 = (20, 3) := by
    norm_num [Cam.curveDisplacementRaw]
  refine ⟨?_, by norm_num, by norm_num, by decide⟩
  unfold Cam.detectCurveAndTurn
  rw [hraw]
  norm_num [Cam.regionsDetected, abs_of_nonneg]

/-- Claim C2 (confirmed): one PID step returns the clamped sum of the P, I
and D terms with the integral clamped to [-50, 50], stores error as the new
previousError and the clamped integral; with Ki = 0, Kd = 0, Kp = 2 and any
stored state, error 10 gives control 20 and error 80 gives control 100. -/
theorem C2_pid_step (kp ki kd : Rat) (st : Robot.PidState) (error : Rat) :
    (Robot.calculatePID kp ki kd st error).1 =
      max (-100) (min 100
        (kp * error + ki * max (-50) (min 50 (st.integral + error)) +
          kd * (error - st.previousError))) ∧
    (Robot.calculatePID kp ki kd st error).2 =
      ⟨error, max (-50) (min 50 (st.integral + error))⟩ ∧
    (Robot.calculatePID 2 0 0 st 10).1 = 20 ∧
    (Robot.calculatePID 2 0 0 st 80).1 = 100 := by
  refine ⟨?_, ?_, ?_, ?_⟩
  · rw [Robot.calculatePID_closed_form]
  · rw [Robot.calculatePID_closed_form]
  · rw [Robot.calculatePID_closed_form]
    norm_num
  · rw [Robot.calculatePID_closed_form]
    norm_num

/-- Claim C3 (confirmed): from a searching state, a positive detection
(detected with confidence at or above CONFIDENCE_MIN) puts the machine in
FOLLOWING with previousError = 0 and integral = 0 right after the
transition, and the PID step of the same cycle then runs from that reset
state. -/
theorem C3_reacquire_resets_pid (kp ki kd : Rat) (m : Robot.Machine)
    (now : Nat) (r : Mono.MonoLineResult)
    (hdet : r.detected = true) (hconf : Robot.CONFIDENCE_MIN ≤ r.confidence)
    (hs : m.state = Robot.RobotState.SEARCHING_LEFT ∨
      m.state = Robot.RobotState.SEARCHING_RIGHT) :
    (Robot.reacquire m now).state = Robot.RobotState.FOLLOWING ∧
    (Robot.reacquire m now).pid.previousError = 0 ∧
    (Robot.reacquire m now).pid.integral = 0 ∧
    (Robot.loopStep kp ki kd m now r).1.state = Robot.RobotState.FOLLOWING ∧
    (Robot.loopStep kp ki kd m now r).1.pid =
      (Robot.calculatePID kp ki kd ⟨0, 0⟩ ((r.deviation : Int) : Rat)).2 := by
  have hne : ¬ ({ m with lastDetectionTime := now } : Robot.Machine).state =
      Robot.RobotState.FOLLOWING := by
    rcases hs with h | h <;> simp [h]
  have hre : Robot.reacquire m now =
      ⟨Robot.RobotState.FOLLOWING, ⟨0, 0⟩, m.searchStartTime, now⟩ := by
    unfold Robot.reacquire
    dsimp only
    rw [if_pos hne]
  refine ⟨by rw [hre], by rw [hre], by rw [hre], ?_, ?_⟩ <;>
    · unfold Robot.loopStep
      rw [if_pos ⟨hdet, hconf⟩]
      unfold Robot.handleLineDetected
      rw [hre]

/-- Claim C3, witness: a concrete searching machine with a concrete
positive detection. -/
theorem C3_witness :
    (Robot.reacquire ⟨Robot.RobotState.SEARCHING_LEFT, ⟨3, 7⟩, 11, 22⟩
        500).state = Robot.RobotState.FOLLOWING ∧
    (Robot.reacquire ⟨Robot.RobotState.SEARCHING_LEFT, ⟨3, 7⟩, 11, 22⟩
        500).pid.previousError = 0 ∧
    (Robot.reacquire ⟨Robot.RobotState.SEARCHING_LEFT, ⟨3, 7⟩, 11, 22⟩
        500).pid.integral = 0 ∧
    (Robot.loopStep 2 0 0 ⟨Robot.RobotState.SEARCHING_LEFT, ⟨3, 7⟩, 11, 22⟩
        500 ⟨true, 60, 12, 80, 10⟩).1.state = Robot.RobotState.FOLLOWING ∧
    (Robot.loopStep 2 0 0 ⟨Robot.RobotState.SEARCHING_LEFT, ⟨3, 7⟩, 11, 22⟩
        500 ⟨true, 60, 12, 80, 10⟩).1.pid =
      (Robot.calculatePID 2 0 0 ⟨0, 0⟩ ((10 : Int) : Rat)).2 :=
  C3_reacquire_resets_pid 2 0 0 ⟨Robot.RobotState.SEARCHING_LEFT, ⟨3, 7⟩, 11, 22⟩
    500 ⟨true, 60, 12, 80, 10⟩ rfl (by decide) (Or.inl rfl)

/-- Claim C4 (confirmed): in FOLLOWING with no positive detection the
machine stays in FOLLOWING while at most 300 ms have elapsed since the
last detection, any departure from FOLLOWING implies at least 300 ms have
elapsed, and beyond 300 ms it moves to SEARCHING_LEFT, stamping the search
start time. -/
theorem C4_following_timeout (m : Robot.Machine) (now : Nat)
    (hst : m.state = Robot.RobotState.FOLLOWING) :
    (now - m.lastDetectionTime ≤ 300 →
      Robot.handleLineNotDetected m now = m) ∧
    ((Robot.handleLineNotDetected m now).state ≠ Robot.RobotState.FOLLOWING →
      300 ≤ now - m.lastDetectionTime) ∧
    (300 < now - m.lastDetectionTime →
      (Robot.handleLineNotDetected m now).state =
        Robot.RobotState.SEARCHING_LEFT ∧
      (Robot.handleLineNotDetected m now).searchStartTime = now) := by
  obtain ⟨st, pid, sst, ldt⟩ := m
  cases hst
  unfold Robot.handleLineNotDetected
  dsimp only
  by_cases helapsed : 300 < now - ldt
  · rw [if_pos helapsed]
    exact ⟨fun hle => absurd helapsed (by omega), fun _ => by omega,
      fun _ => ⟨rfl, rfl⟩⟩
  · rw [if_neg helapsed]
    exact ⟨fun _ => rfl, fun hne => absurd rfl hne, fun hgt => absurd hgt helapsed⟩

set_option maxRecDepth 10000 in
/-- Claim C7 (confirmed): successful calibration sets the threshold to the
midpoint of the first tallest bin of [0,128) and the first tallest bin of
[128,256), and inverts the polarity exactly when the integer mean of the
border pixels (top and bottom rows plus the interior of the left and right
columns) is below that threshold; the 4 x 4 frame with bins 60 and 200 and
an all-200 border yields threshold 130 and normal polarity. -/
theorem C7_calibration_threshold_polarity :
    (∀ (buf : Nat → Nat) (w h : Nat) (st : Cam.CalibState),
        (∃ i, i < w * h ∧ buf i < 128) →
        (∃ i, i < w * h ∧ 128 ≤ buf i ∧ buf i < 256) →
        ∃ p1 p2,
          Cam.IsFirstPeak (Cam.histCount buf (w * h)) 0 128 p1 ∧
          Cam.IsFirstPeak (Cam.histCount buf (w * h)) 128 256 p2 ∧
          Cam.calibrateCamera buf w h st =
            ⟨(p1 + p2) / 2,
             decide ((Cam.borderPixels buf w h).sum /
                 (Cam.borderPixels buf w h).length < (p1 + p2) / 2)⟩) ∧
    Cam.calibrateCamera img44 4 4 ⟨0, true⟩ = ⟨130, false⟩ := by
  constructor
  · intro buf w h st hlo hhi
    obtain ⟨i, hi, hiv⟩ := hlo
    obtain ⟨j, hj, hjv1, hjv2⟩ := hhi
    have hfound1 := Cam.findPeak_found (Cam.histCount buf (w * h)) 0 128
      ⟨buf i, Nat.zero_le _, hiv, Cam.histCount_pos buf (w * h) i hi⟩
    have hfound2 := Cam.findPeak_found (Cam.histCount buf (w * h)) 128 256
      ⟨buf j, hjv1, hjv2, Cam.histCount_pos buf (w * h) j hj⟩
    refine ⟨(Cam.findPeak (Cam.histCount buf (w * h)) 0 128).2,
      (Cam.findPeak (Cam.histCount buf (w * h)) 128 256).2,
      hfound1.2, hfound2.2, ?_⟩
    unfold Cam.calibrateCamera
    dsimp only
    rw [if_pos ⟨hfound1.1, hfound2.1⟩, Cam.borderPixels_sum,
      Cam.borderPixels_length]
  · decide

/-- Claim C7, witness: the general statement applied to the concrete 4 x 4
frame. -/
theorem C7_witness :
    ∃ p1 p2,
      Cam.IsFirstPeak (Cam.histCount img44 (4 * 4)) 0 128 p1 ∧
      Cam.IsFirstPeak (Cam.histCount img44 (4 * 4)) 128 256 p2 ∧
      Cam.calibrateCamera img44 4 4 ⟨0, true⟩ =
        ⟨(p1 + p2) / 2,
         decide ((Cam.borderPixels img44 4 4).sum /
             (Cam.borderPixels img44 4 4).length < (p1 + p2) / 2)⟩ :=
  C7_calibration_threshold_polarity.1 img44 4 4 ⟨0, true⟩
    ⟨5, by decide, by decide⟩ ⟨0, by decide, by decide, by decide⟩

/-- Claim C8 (confirmed): when either histogram half holds no sample
(no pixel below 128, or no pixel in 128..255), calibrateCamera returns the
previous state unchanged: neither the threshold nor the polarity moves. -/
theorem C8_calibration_failure_keeps_state (buf : Nat → Nat) (w h : Nat)
    (st : Cam.CalibState)
    (hfail : (∀ i, i < w * h → ¬ buf i < 128) ∨
      (∀ i, i < w * h → ¬ (128 ≤ buf i ∧ buf i < 256))) :
    Cam.calibrateCamera buf w h st = st := by
  unfold Cam.calibrateCamera
  dsimp only
  rcases hfail with hf | hf
  · have hz : Cam.findPeak (Cam.histCount buf (w * h)) 0 128 = (0, 0) := by
      apply Cam.findPeak_zero
      intro v hv0 hv128
      unfold Cam.histCount
      rw [List.length_eq_zero]
      apply List.filter_eq_nil_iff.mpr
      intro i hi
      simp only [List.mem_range] at hi
      have := hf i hi
      simp only [decide_eq_true_eq]
      omega
    rw [hz]
    rw [if_neg (by simp)]
  · have hz : Cam.findPeak (Cam.histCount buf (w * h)) 128 256 = (0, 0) := by
      apply Cam.findPeak_zero
      intro v hv0 hv256
      unfold Cam.histCount
      rw [List.length_eq_zero]
      apply List.filter_eq_nil_iff.mpr
      intro i hi
      simp only [List.mem_range] at hi
      have := hf i hi
      simp only [decide_eq_true_eq]
      omega
    rw [hz]
    rw [if_neg (by simp)]

/-- Claim C8, witness: a flat all-200 frame leaves a concrete prior state
untouched. -/
theorem C8_witness :
    Cam.calibrateCamera (fun _ => 200) 4 4 ⟨77, true⟩ = ⟨77, true⟩ :=
  C8_calibration_failure_keeps_state (fun _ => 200) 4 4 ⟨77, true⟩
    (Or.inl (by decide))

/-- Claim C4, witness: at exactly 300 ms the machine stays in FOLLOWING and
at 301 ms it enters SEARCHING_LEFT. -/
theorem C4_witness :
    Robot.handleLineNotDetected
        ⟨Robot.RobotState.FOLLOWING, ⟨0, 0⟩, 0, 100⟩ 400 =
      ⟨Robot.RobotState.FOLLOWING, ⟨0, 0⟩, 0, 100⟩ ∧
    (Robot.handleLineNotDetected
        ⟨Robot.RobotState.FOLLOWING, ⟨0, 0⟩, 0, 100⟩ 401).state =
      Robot.RobotState.SEARCHING_LEFT :=
  ⟨(C4_following_timeout ⟨Robot.RobotState.FOLLOWING, ⟨0, 0⟩, 0, 100⟩ 400
      rfl).1 (by decide),
   ((C4_following_timeout ⟨Robot.RobotState.FOLLOWING, ⟨0, 0⟩, 0, 100⟩ 401
      rfl).2.2 (by decide)).1⟩
